import Mathlib

/-!
Verification development for the Lynkr proxy.

This file gives a shallow embedding, in Lean 4, of the parts of the Lynkr
source that the verified properties talk about:

* `src/cache/prompt.js` — the prompt cache (`normaliseObject`, `buildKey`,
  `shouldCacheResponse`, `lookup`, `fetch`, `storeResponse`);
* `src/workspace/index.js` — `resolveWorkspacePath`;
* the policy engine (`evaluateShellCall`, `evaluateToolCall`) and its
  shell blocklist of regular expressions;
* `src/tools/index.js` — the tool registry, alias table, and
  `executeToolCall`;
* `src/mcp/client.js` — the JSON-RPC client state machine
  (`request` / `close`).

JavaScript runtime values are modelled by the inductive type `JVal`
(`undefined` is a distinct constructor, since the code distinguishes it
from `null`); JS truthiness, property access, nullish coalescing and
`Array.isArray` are modelled explicitly.  Machine-level aspects (actual
SHA-256 digests, wall-clock time, child processes) are abstracted in the
standard way: key equality is represented by equality of the canonical
serialisation the digest is taken of, time is an explicit `Nat`
parameter, and process I/O becomes explicit state transitions.
-/

set_option maxRecDepth 4000

namespace Lynkr

/-! ## JavaScript values -/

/-- A JSON-with-`undefined` value, the universe the cache and tool code
computes over.  Objects are key/value lists in insertion order (JS object
keys are unique; all objects built here are). -/
inductive JVal where
  | jnull
  | undef
  | bool (b : Bool)
  | num (n : Int)
  | str (s : String)
  | arr (items : List JVal)
  | obj (fields : List (String × JVal))

/-- JS truthiness of a value (`!!v`). -/
def truthy : JVal → Bool
  | JVal.jnull => false
  | JVal.undef => false
  | JVal.bool b => b
  | JVal.num n => !(n = 0)
  | JVal.str s => !(s = "")
  | JVal.arr _ => true
  | JVal.obj _ => true

/-- First binding of a key in an association list (JS objects have unique
keys, so first = only). -/
def assocFind (key : String) : List (String × JVal) → Option JVal
  | [] => none
  | (k, v) :: rest => if k = key then some v else assocFind key rest

/-- Property access `v[key]` as the JS code uses it: objects look the key
up, every other value yields `undefined`.  (The code only accesses
properties on receivers it has already guarded against `null`/`undefined`,
or via optional chaining, which is modelled at the call sites.) -/
def jget (v : JVal) (key : String) : JVal :=
  match v with
  | JVal.obj fields => (assocFind key fields).getD JVal.undef
  | _ => JVal.undef

/-- Nullish coalescing `a ?? b`. -/
def coalesce (a b : JVal) : JVal :=
  match a with
  | JVal.jnull => b
  | JVal.undef => b
  | v => v

/-- Is the value exactly `undefined`. -/
def isUndef : JVal → Bool
  | JVal.undef => true
  | _ => false

/-! ## `normaliseObject` (src/cache/prompt.js) -/

/-- Lexicographic code-point comparison of strings, the order
`Object.keys(value).sort()` sorts by. -/
def lexLe : List Char → List Char → Bool
  | [], _ => true
  | _ :: _, [] => false
  | x :: xs, y :: ys =>
      if x.toNat < y.toNat then true
      else if y.toNat < x.toNat then false
      else lexLe xs ys

/-- String key order used when sorting object fields. -/
def keyLe (a b : String) : Bool := lexLe a.data b.data

/-- Insert one field into a key-sorted field list (insertion sort step). -/
def insertField (x : String × JVal) : List (String × JVal) → List (String × JVal)
  | [] => [x]
  | y :: ys => if keyLe x.1 y.1 then x :: y :: ys else y :: insertField x ys

/-- Sort object fields by key, modelling `Object.keys(value).sort()`. -/
def sortFields : List (String × JVal) → List (String × JVal)
  | [] => []
  | x :: xs => insertField x (sortFields xs)

/-- Drop `undefined`-valued fields (`if (candidate === undefined) continue`). -/
def dropUndef : List (String × JVal) → List (String × JVal)
  | [] => []
  | (_, JVal.undef) :: rest => dropUndef rest
  | kv :: rest => kv :: dropUndef rest

mutual

/-- Embedding of `normaliseObject` from src/cache/prompt.js: primitives
are returned as-is, arrays are normalised element-wise in order, objects
get their keys sorted, `undefined`-valued fields dropped, and their
values normalised.  The source sorts the keys first and then skips
`undefined` values and normalises the rest; since the sort is stable,
compares keys only, and a value normalises to `undefined` exactly when it
is `undefined`, normalising the values first — as done here so the
recursion is structural — is the same function. -/
def normaliseObject : JVal → JVal
  | JVal.arr items => JVal.arr (normaliseList items)
  | JVal.obj fields => JVal.obj (dropUndef (sortFields (normaliseFields fields)))
  | v => v

/-- Element-wise normalisation of an array (`value.map(normaliseObject)`). -/
def normaliseList : List JVal → List JVal
  | [] => []
  | v :: rest => normaliseObject v :: normaliseList rest

/-- Value-wise normalisation of an object's fields. -/
def normaliseFields : List (String × JVal) → List (String × JVal)
  | [] => []
  | (k, v) :: rest => (k, normaliseObject v) :: normaliseFields rest

end

/-! ## JSON serialisation (`JSON.stringify`) -/

/-- Hex digit for string escapes. -/
def hexDigit (n : Nat) : Char :=
  if n < 10 then Char.ofNat (48 + n) else Char.ofNat (87 + n)

/-- Escape one character the way `JSON.stringify` escapes string
contents. -/
def escChar (c : Char) : String :=
  if c = '"' then "\\\""
  else if c = '\\' then "\\\\"
  else if c = '\n' then "\\n"
  else if c = '\r' then "\\r"
  else if c = '\t' then "\\t"
  else if c.toNat < 32 then
    "\\u00" ++ String.mk [hexDigit (c.toNat / 16), hexDigit (c.toNat % 16)]
  else String.mk [c]

/-- Escaped, quoted JSON string literal. -/
def quoteStr (s : String) : String :=
  "\"" ++ String.join (s.data.map escChar) ++ "\""

/-- Serialisation of a JS number (the code only ever produces integral
numbers). -/
def numRepr (n : Int) : String := toString n

mutual

/-- Compact `JSON.stringify(value)`.  `undefined` only occurs inside
arrays in the values this is applied to, where `JSON.stringify` emits
`null`; `undefined`-valued object fields are skipped, as in JS. -/
def jsonStringify : JVal → String
  | JVal.jnull => "null"
  | JVal.undef => "null"
  | JVal.bool b => cond b "true" "false"
  | JVal.num n => numRepr n
  | JVal.str s => quoteStr s
  | JVal.arr items => "[" ++ stringifyItems items ++ "]"
  | JVal.obj fields => "\x7b" ++ stringifyMembers fields ++ "\x7d"

/-- Comma-separated array elements. -/
def stringifyItems : List JVal → String
  | [] => ""
  | [v] => jsonStringify v
  | v :: rest => jsonStringify v ++ "," ++ stringifyItems rest

/-- Comma-separated object members, skipping `undefined` values. -/
def stringifyMembers : List (String × JVal) → String
  | [] => ""
  | (_, JVal.undef) :: rest => stringifyMembers rest
  | (k, v) :: rest =>
      match rest with
      | [] => quoteStr k ++ ":" ++ jsonStringify v
      | _ =>
          match stringifyMembers rest with
          | "" => quoteStr k ++ ":" ++ jsonStringify v
          | tailStr => quoteStr k ++ ":" ++ jsonStringify v ++ "," ++ tailStr

end

/-- Embedding of `stableStringify`: serialise the normalised value. -/
def stableStringify (v : JVal) : String := jsonStringify (normaliseObject v)

/-! ## Prompt cache (src/cache/prompt.js)

`cloneValue` (`structuredClone`) is the identity on our pure `JVal`
values.  The SHA-256 digest of the canonical serialisation is modelled by
the canonical serialisation itself: the digest is a fixed function of it,
so every key-equality statement transfers. -/

/-- A stored cache entry: cloned response value, creation time and
absolute expiry (`null` when the TTL is not positive). -/
structure CacheEntry where
  value : JVal
  createdAt : Nat
  expiresAt : Option Nat

/-- The `PromptCache` instance state.  `store` is the backing `Map` in
insertion order: head = least recently used, tail = most recently used. -/
structure PromptCache where
  enabled : Bool
  maxEntries : Nat
  ttlMs : Nat
  store : List (String × CacheEntry)

/-- The `PromptCache` constructor: `enabled` must be exactly `true`,
`maxEntries` and `ttlMs` fall back to 64 and 300000 unless given as
positive integers. -/
def mkPromptCache (enabled : Option JVal) (maxEntries ttlMs : Option Int) : PromptCache :=
  { enabled := match enabled with
      | some (JVal.bool true) => true
      | _ => false
    maxEntries := match maxEntries with
      | some m => if 0 < m then m.toNat else 64
      | none => 64
    ttlMs := match ttlMs with
      | some t => if 0 < t then t.toNat else 300000
      | none => 300000
    store := [] }

/-- The `model`/`input`/`temperature`/`top_p`/`max_tokens` slots of the
canonical key object: `payload.f ?? null`. -/
def keyField (payload : JVal) (name : String) : JVal :=
  coalesce (jget payload name) JVal.jnull

/-- The `messages`/`tools`/`tool_choice` slots of the canonical key
object: `payload.f ? normaliseObject(payload.f) : null`. -/
def keyFieldNorm (payload : JVal) (name : String) : JVal :=
  if truthy (jget payload name) then normaliseObject (jget payload name) else JVal.jnull

/-- The canonical object whose stable serialisation is hashed into the
cache key. -/
def canonicalKeyObject (payload : JVal) : JVal :=
  JVal.obj
    [ ("model", keyField payload "model")
    , ("input", keyField payload "input")
    , ("messages", keyFieldNorm payload "messages")
    , ("tools", keyFieldNorm payload "tools")
    , ("tool_choice", keyFieldNorm payload "tool_choice")
    , ("temperature", keyField payload "temperature")
    , ("top_p", keyField payload "top_p")
    , ("max_tokens", keyField payload "max_tokens") ]

/-- Is the value a JS `object` for the purpose of
`typeof payload !== "object"` (arrays included, `null` excluded by the
preceding truthiness test). -/
def isObjectLike : JVal → Bool
  | JVal.obj _ => true
  | JVal.arr _ => true
  | JVal.jnull => true
  | _ => false

/-- Embedding of `PromptCache.buildKey`: `null` when disabled or the
payload is not a truthy object, otherwise the digest of the stable
serialisation of the canonical key object (represented by that
serialisation). -/
def buildKey (c : PromptCache) (payload : JVal) : Option String :=
  if c.enabled = false then none
  else if truthy payload = false || isObjectLike payload = false then none
  else some (stableStringify (canonicalKeyObject payload))

/-- Has the entry expired by time `now`
(`entry.expiresAt && entry.expiresAt <= now`; `0` is falsy). -/
def entryExpired (e : CacheEntry) (now : Nat) : Bool :=
  match e.expiresAt with
  | some t => !(t = 0) && t ≤ now
  | none => false

/-- Embedding of `pruneExpired`: a no-op when disabled or `ttlMs ≤ 0`,
otherwise drop every expired entry. -/
def pruneExpired (c : PromptCache) (now : Nat) : PromptCache :=
  if c.enabled = false then c
  else if c.ttlMs = 0 then c
  else { c with store := c.store.filter (fun kv => !(entryExpired kv.2 now)) }

/-- Either a payload or an already-built key, the `payloadOrKey`
argument of `lookup` and `storeResponse`. -/
def keyOf (c : PromptCache) : Sum String JVal → Option String
  | Sum.inl s => some s
  | Sum.inr payload => buildKey c payload

/-- Delete a key from the store (`Map.delete`; keys are unique). -/
def storeDelete (store : List (String × CacheEntry)) (key : String) :
    List (String × CacheEntry) :=
  store.filter (fun kv => !(kv.1 = key))

/-- Look a key up in the store (`Map.get`). -/
def storeGet (store : List (String × CacheEntry)) (key : String) : Option CacheEntry :=
  (store.find? (fun kv => kv.1 = key)).map (fun kv => kv.2)

/-- Embedding of `PromptCache.lookup`: returns the mutated cache, the key
(if one could be built) and the entry (if present and live).  A hit is
moved to the most-recently-used tail position. -/
def lookup (c : PromptCache) (payloadOrKey : Sum String JVal) (now : Nat) :
    PromptCache × Option String × Option CacheEntry :=
  if c.enabled = false then (c, none, none)
  else
    match keyOf c payloadOrKey with
    | none => (c, none, none)
    | some key =>
        let c1 := pruneExpired c now
        match storeGet c1.store key with
        | none => (c1, some key, none)
        | some e =>
            if entryExpired e now then
              ({ c1 with store := storeDelete c1.store key }, some key, none)
            else
              ({ c1 with store := storeDelete c1.store key ++ [(key, e)] },
               some key, some e)

/-- Embedding of `PromptCache.fetch`: a lookup whose hit returns the key
and a clone of the stored response. -/
def fetch (c : PromptCache) (payload : JVal) (now : Nat) :
    PromptCache × Option (String × JVal) :=
  match lookup c (Sum.inr payload) now with
  | (c', some key, some e) => (c', some (key, e.value))
  | (c', _, _) => (c', none)

/-- The first choice of a response body, `response.json?.choices?.[0]`:
index 0 of an array, first character of a non-empty string, field "0"
of an object, `undefined` otherwise. -/
def choiceZero (v : JVal) : JVal :=
  match v with
  | JVal.arr (x :: _) => x
  | JVal.obj fields => (assocFind "0" fields).getD JVal.undef
  | JVal.str s =>
      match s.data with
      | c :: _ => JVal.str (String.mk [c])
      | [] => JVal.undef
  | _ => JVal.undef

/-- The first choice of a response, `response.json?.choices?.[0]`. -/
def choiceOf (r : JVal) : JVal := choiceZero (jget (jget r "json") "choices")

/-- The first choice's message, `choice.message ?? {}`. -/
def msgOf (r : JVal) : JVal := coalesce (jget (choiceOf r) "message") (JVal.obj [])

/-- The guard `response.ok !== true` of `shouldCacheResponse`, as the
positive test: is `ok` strictly the boolean `true`. -/
def okTrueB (r : JVal) : Bool :=
  match jget r "ok" with
  | JVal.bool true => true
  | _ => false

/-- The guard
`typeof response.status === "number" && response.status !== 200`. -/
def statusBadB (r : JVal) : Bool :=
  match jget r "status" with
  | JVal.num n => !(n = 200)
  | _ => false

/-- The guard `choice?.finish_reason === "tool_calls"`. -/
def finishToolCallsB (r : JVal) : Bool :=
  match jget (choiceOf r) "finish_reason" with
  | JVal.str s => s = "tool_calls"
  | _ => false

/-- The guard
`Array.isArray(message.tool_calls) && message.tool_calls.length > 0`. -/
def msgToolCallsB (r : JVal) : Bool :=
  match jget (msgOf r) "tool_calls" with
  | JVal.arr (_ :: _) => true
  | _ => false

/-- Embedding of `shouldCacheResponse`, one `if` per early `return
false` of the source, in source order: falsy response, `ok !== true`,
falsy `json`, numeric non-200 status, falsy first choice,
`finish_reason === "tool_calls"`, non-empty `message.tool_calls`. -/
def shouldCacheResponse (response : JVal) : Bool :=
  if truthy response = false then false
  else if okTrueB response = false then false
  else if truthy (jget response "json") = false then false
  else if statusBadB response = true then false
  else if truthy (choiceOf response) = false then false
  else if finishToolCallsB response = true then false
  else if msgToolCallsB response = true then false
  else true

/-- The `while (size > maxEntries) delete oldest` eviction loop. -/
def evictLoop (maxEntries : Nat) : List (String × CacheEntry) → List (String × CacheEntry)
  | [] => []
  | kv :: rest =>
      if maxEntries < rest.length + 1 then evictLoop maxEntries rest
      else kv :: rest

/-- The entry `storeResponse` writes: cloned response (identity on pure
values), creation time, and expiry `now + ttlMs` when the TTL is
positive. -/
def freshEntry (c : PromptCache) (response : JVal) (now : Nat) : CacheEntry :=
  { value := response
    createdAt := now
    expiresAt := if 0 < c.ttlMs then some (now + c.ttlMs) else none }

/-- Embedding of `PromptCache.storeResponse`: inert when disabled or the
response is not admissible; otherwise prunes, re-inserts the key at the
most-recently-used tail and evicts from the least-recently-used head
past `maxEntries`.  Returns the mutated cache and the key written. -/
def storeResponse (c : PromptCache) (payloadOrKey : Sum String JVal)
    (response : JVal) (now : Nat) : PromptCache × Option String :=
  if c.enabled = false then (c, none)
  else if shouldCacheResponse response = false then (c, none)
  else
    match keyOf c payloadOrKey with
    | none => (c, none)
    | some key =>
        let c1 := pruneExpired c now
        let store2 := storeDelete c1.store key ++ [(key, freshEntry c response now)]
        ({ c1 with store := evictLoop c.maxEntries store2 }, some key)

/-- Store one response under each of a list of keys, in order. -/
def storeMany (c : PromptCache) (ks : List String) (response : JVal) (now : Nat) :
    PromptCache :=
  ks.foldl (fun acc k => (storeResponse acc (Sum.inl k) response now).1) c

/-! ## Workspace path resolution (src/workspace/index.js) -/

/-- Split a character list at `/` separators. -/
def splitSlash : List Char → List (List Char)
  | [] => [[]]
  | c :: rest =>
      if c = '/' then [] :: splitSlash rest
      else
        match splitSlash rest with
        | [] => [[c]]
        | seg :: segs => (c :: seg) :: segs

/-- Process path segments left to right, resolving `.` and `..` against
an accumulator stack (kept reversed), exactly as POSIX
`path.resolve`/`path.normalize` does for an absolute path: empty and `.`
segments vanish, `..` pops (and cannot climb above the root). -/
def resolveSegs (acc : List (List Char)) : List (List Char) → List (List Char)
  | [] => acc.reverse
  | seg :: rest =>
      if seg = [] || seg = ['.'] then resolveSegs acc rest
      else if seg = ['.', '.'] then resolveSegs acc.tail rest
      else resolveSegs (seg :: acc) rest

/-- Join normalised segments back into an absolute path string. -/
def joinSegs : List (List Char) → List Char
  | [] => []
  | [seg] => seg
  | seg :: rest => seg ++ '/' :: joinSegs rest

/-- Node's `path.resolve(root, target)` for an absolute, already
normalised `root`: an absolute `target` stands alone, otherwise it is
appended to `root`; the combination is then normalised. -/
def pathResolve (root target : String) : String :=
  let combined : List Char :=
    match target.data with
    | '/' :: _ => target.data
    | _ => root.data ++ '/' :: target.data
  String.mk ('/' :: joinSegs (resolveSegs [] (splitSlash combined)))

/-- JS `String.prototype.startsWith` on our strings. -/
def strStartsWith (s pre : String) : Bool := pre.data.isPrefixOf s.data

/-- Embedding of `resolveWorkspacePath`: reject empty paths, resolve
against the workspace root, and reject when the resolved path does not
*textually* start with the root. -/
def resolveWorkspacePath (workspaceRoot targetPath : String) : Except String String :=
  if targetPath = "" then Except.error "Path must be a non-empty string."
  else
    let resolved := pathResolve workspaceRoot targetPath
    if strStartsWith resolved workspaceRoot = false then
      Except.error "Access outside workspace is not permitted."
    else Except.ok resolved

/-- Containment in the workspace root as the spec means it: the root
itself, or a path below the root directory. -/
def isContainedIn (workspaceRoot p : String) : Bool :=
  p = workspaceRoot || strStartsWith p (workspaceRoot ++ "/")

/-! ## Policy engine shell blocklist

The blocklist entries are JS regular expressions; they are embedded as
sequences of the regex items they are built from, matched by an explicit
backtracking matcher.  The fork-bomb pattern `:(){:|:&};:` contains an
unescaped top-level alternation (and `()` is an empty group), so as a
regex it matches any string containing `:{:` or containing `:&};:`; it is
embedded as those two alternatives. -/

/-- One item of a (very small) regex: case-insensitive literal,
case-sensitive literal, `\s+`, `\s*`, `\w*`, a `['"]` quote class, or
`(?:\s|$)`. -/
inductive RItem where
  | lit (c : Char)
  | litCS (c : Char)
  | wsPlus
  | wsStar
  | wordStar
  | quoteCls
  | wsOrEnd

/-- JS `\s` on the characters that occur in commands. -/
def isWsChar (c : Char) : Bool :=
  c = ' ' || c = '\t' || c = '\n' || c = '\r' || c = '\x0b' || c = '\x0c'

/-- JS `\w`. -/
def isWordChar (c : Char) : Bool :=
  c.isAlpha || c.isDigit || c = '_'

/-- Backtracking matcher for a sequence of regex items against a
character list, anchored at the start; the fuel argument only bounds the
recursion and is always supplied large enough. -/
def matchSeq : Nat → List RItem → List Char → Bool
  | 0, _, _ => false
  | _ + 1, [], _ => true
  | _ + 1, RItem.lit _ :: _, [] => false
  | fuel + 1, RItem.lit c :: rest, x :: xs =>
      x.toLower = c && matchSeq fuel rest xs
  | _ + 1, RItem.litCS _ :: _, [] => false
  | fuel + 1, RItem.litCS c :: rest, x :: xs =>
      x = c && matchSeq fuel rest xs
  | _ + 1, RItem.wsPlus :: _, [] => false
  | fuel + 1, RItem.wsPlus :: rest, x :: xs =>
      isWsChar x && matchSeq fuel (RItem.wsStar :: rest) xs
  | fuel + 1, RItem.wsStar :: rest, [] => matchSeq fuel rest []
  | fuel + 1, RItem.wsStar :: rest, x :: xs =>
      matchSeq fuel rest (x :: xs) || (isWsChar x && matchSeq fuel (RItem.wsStar :: rest) xs)
  | fuel + 1, RItem.wordStar :: rest, [] => matchSeq fuel rest []
  | fuel + 1, RItem.wordStar :: rest, x :: xs =>
      matchSeq fuel rest (x :: xs) || (isWordChar x && matchSeq fuel (RItem.wordStar :: rest) xs)
  | _ + 1, RItem.quoteCls :: _, [] => false
  | fuel + 1, RItem.quoteCls :: rest, x :: xs =>
      (x = '\'' || x = '"') && matchSeq fuel rest xs
  | fuel + 1, RItem.wsOrEnd :: rest, [] => matchSeq fuel rest []
  | fuel + 1, RItem.wsOrEnd :: rest, x :: xs =>
      isWsChar x && matchSeq fuel rest xs

/-- Sufficient fuel for `matchSeq`: every step consumes an item or a
character. -/
def matchFuel (items : List RItem) (chars : List Char) : Nat :=
  items.length + chars.length + 1

/-- Unanchored regex search (`RegExp.prototype.test`): try to match at
every start position. -/
def searchFrom (items : List RItem) : List Char → Bool
  | [] => matchSeq (matchFuel items []) items []
  | c :: rest =>
      matchSeq (matchFuel items (c :: rest)) items (c :: rest) || searchFrom items rest

/-- Does a regex (as an item sequence) match anywhere in a string. -/
def testPattern (items : List RItem) (s : String) : Bool := searchFrom items s.data

/-- Case-insensitive literal run of a pattern (pattern text is given in
lower case). -/
def lits (s : String) : List RItem := s.data.map RItem.lit

/-- Case-sensitive literal run of a pattern. -/
def litsCS (s : String) : List RItem := s.data.map RItem.litCS

/-- The `SHELL_BLOCKLIST_PATTERNS` list: `rm\s+-rf\s+/(?:\s|$)`,
`shutdown`, `reboot`, `systemctl\s+stop`, `mkfs\w*`, `dd\s+if=/dev/`,
the fork-bomb regex (as its two alternatives) and `chown\s+-R\s+root`,
all case-insensitive except the fork bomb. -/
def SHELL_BLOCKLIST_PATTERNS : List (List RItem) :=
  [ lits "rm" ++ [RItem.wsPlus] ++ lits "-rf" ++ [RItem.wsPlus] ++ lits "/" ++ [RItem.wsOrEnd]
  , lits "shutdown"
  , lits "reboot"
  , lits "systemctl" ++ [RItem.wsPlus] ++ lits "stop"
  , lits "mkfs" ++ [RItem.wordStar]
  , lits "dd" ++ [RItem.wsPlus] ++ lits "if=/dev/"
  , litsCS ":" ++ [RItem.litCS '\x7b'] ++ litsCS ":"
  , litsCS ":&\x7d;:"
  , lits "chown" ++ [RItem.wsPlus] ++ lits "-r" ++ [RItem.wsPlus] ++ lits "root" ]

/-- The `PYTHON_BLOCKLIST_PATTERNS` list (`os.remove('/')`,
`subprocess.call/run("rm -rf`, `shutil.rmtree('/')`), with the
`(call|run)` alternation expanded. -/
def PYTHON_BLOCKLIST_PATTERNS : List (List RItem) :=
  [ lits "os.remove" ++ [RItem.wsStar] ++ lits "(" ++ [RItem.wsStar, RItem.quoteCls]
      ++ lits "/" ++ [RItem.quoteCls, RItem.wsStar] ++ lits ")"
  , lits "subprocess.call" ++ [RItem.wsStar] ++ lits "(" ++ [RItem.wsStar, RItem.quoteCls]
      ++ lits "rm" ++ [RItem.wsPlus] ++ lits "-rf"
  , lits "subprocess.run" ++ [RItem.wsStar] ++ lits "(" ++ [RItem.wsStar, RItem.quoteCls]
      ++ lits "rm" ++ [RItem.wsPlus] ++ lits "-rf"
  , lits "shutil.rmtree" ++ [RItem.wsStar] ++ lits "(" ++ [RItem.wsStar, RItem.quoteCls]
      ++ lits "/" ++ [RItem.quoteCls, RItem.wsStar] ++ lits ")" ]

/-- Embedding of `matchesAny`: does any pattern match the string. -/
def matchesAny (patterns : List (List RItem)) (value : String) : Bool :=
  patterns.any (fun p => testPattern p value)

/-! ## Policy engine (`evaluateToolCall`) -/

/-- The policy-relevant slice of the configuration
(`config.policy`): the disallow list (built by config with
`.filter(Boolean)`, so it never contains the empty string), the per-turn
quota and the git sub-flags. -/
structure PolicyConfig where
  disallowedTools : List String
  maxToolCallsPerTurn : Nat
  gitAllowPush : Bool
  gitAllowPull : Bool
  gitAllowCommit : Bool

/-- How an upstream tool call carries its arguments: no field at all, a
string field (together with what `JSON.parse` makes of it, `none` when it
does not parse), or a structured non-string value. -/
inductive ArgPayload where
  | absent
  | jsonString (parsed : Option JVal)
  | structuredValue (value : JVal)

/-- An upstream tool call as both the policy engine and the registry see
it: `call.function?.name`, `call.name`, `call.id` and
`call.function?.arguments`. -/
structure UpstreamCall where
  id : Option String
  fname : Option String
  name : Option String
  argPayload : ArgPayload

/-- The tool name, `call?.function?.name ?? call?.name`. -/
def toolNameOf (call : UpstreamCall) : Option String := call.fname <|> call.name

/-- Shared `parseArguments` behaviour: only a (parseable) string argument
field yields a mapping, everything else yields `{}`. -/
def parsedArgsOf : ArgPayload → JVal
  | ArgPayload.jsonString (some v) => v
  | _ => JVal.obj []

/-- Embedding of `isToolAllowed`: a falsy name is allowed, otherwise the
name must not be on the disallow list. -/
def isToolAllowed (disallowed : List String) : Option String → Bool
  | none => true
  | some n => if n = "" then true else !(disallowed.contains n)

mutual

/-- JS `Array.prototype.join` separator-joined stringification. -/
def jsJoin (sep : String) : List JVal → String
  | [] => ""
  | [v] => jsItemStr v
  | v :: rest => jsItemStr v ++ sep ++ jsJoin sep rest

/-- How `Array.prototype.join` renders one element. -/
def jsItemStr : JVal → String
  | JVal.jnull => ""
  | JVal.undef => ""
  | JVal.bool b => cond b "true" "false"
  | JVal.num n => numRepr n
  | JVal.str s => s
  | JVal.arr items => jsJoin "," items
  | JVal.obj _ => "[object Object]"

end

/-- The command-string normalisation inside `evaluateShellCall`:
`command` / `cmd` / `run` as strings, else an array `command` or `args`
joined with spaces, else the empty string. -/
def shellCommandOf (args : JVal) : String :=
  if let JVal.str s := jget args "command" then s
  else if let JVal.str s := jget args "cmd" then s
  else if let JVal.str s := jget args "run" then s
  else if let JVal.arr items := jget args "command" then jsJoin " " items
  else if let JVal.arr items := jget args "args" then jsJoin " " items
  else ""

/-- Embedding of `evaluateShellCall`: empty commands are allowed, a
blocklist match is rejected with its reason. -/
def evaluateShellCall (args : JVal) : Bool × Option String :=
  let command := shellCommandOf args
  if command = "" then (true, none)
  else if matchesAny SHELL_BLOCKLIST_PATTERNS command then
    (false, some "Command matched restricted pattern")
  else (true, none)

/-- The code-string normalisation inside `evaluatePythonCall`. -/
def pythonCodeOf (args : JVal) : String :=
  if let JVal.str s := jget args "code" then s
  else if let JVal.str s := jget args "script" then s
  else if let JVal.str s := jget args "input" then s
  else ""

/-- Embedding of `evaluatePythonCall`. -/
def evaluatePythonCall (args : JVal) : Bool × Option String :=
  let code := pythonCodeOf args
  if code = "" then (true, none)
  else if matchesAny PYTHON_BLOCKLIST_PATTERNS code then
    (false, some "Python code matched restricted pattern")
  else (true, none)

/-- A policy verdict `{allowed, reason?, status?, code?}`. -/
structure PolicyVerdict where
  allowed : Bool
  reason : Option String
  status : Option Nat
  code : Option String

/-- The `{allowed: true}` verdict. -/
def allowVerdict : PolicyVerdict := ⟨true, none, none, none⟩

/-- A denial verdict. -/
def denyVerdict (reason : String) (status : Nat) (code : String) : PolicyVerdict :=
  ⟨false, some reason, some status, some code⟩

/-- The git sub-policy checks for `workspace_git_*` tool names. -/
def gitPolicyVerdict (cfg : PolicyConfig) (n : String) : Option PolicyVerdict :=
  if strStartsWith n "workspace_git_" = false then none
  else if n = "workspace_git_push" && cfg.gitAllowPush = false then
    some (denyVerdict "Git push is disabled by policy." 403 "git_push_disabled")
  else if n = "workspace_git_pull" && cfg.gitAllowPull = false then
    some (denyVerdict "Git pull is disabled by policy." 403 "git_pull_disabled")
  else if n = "workspace_git_commit" && cfg.gitAllowCommit = false then
    some (denyVerdict "Git commit is disabled by policy." 403 "git_commit_disabled")
  else none

/-- Embedding of `evaluateToolCall` from the policy engine: disallow
list, then per-turn quota, then git sub-flags, then the shell and python
blocklists, in that order. -/
def evaluateToolCall (cfg : PolicyConfig) (call : UpstreamCall)
    (toolCallsExecuted : Nat) : PolicyVerdict :=
  let toolName := toolNameOf call
  if isToolAllowed cfg.disallowedTools toolName = false then
    denyVerdict ("Tool " ++ toolName.getD "undefined" ++ " is disallowed by policy")
      403 "tool_disallowed"
  else if cfg.maxToolCallsPerTurn ≤ toolCallsExecuted then
    denyVerdict ("Exceeded max tool calls (" ++ toString cfg.maxToolCallsPerTurn ++ ")")
      429 "tool_limit_reached"
  else
    let args := parsedArgsOf call.argPayload
    match toolName with
    | none => allowVerdict
    | some n =>
        match gitPolicyVerdict cfg n with
        | some v => v
        | none =>
            if n = "shell" && (evaluateShellCall args).1 = false then
              denyVerdict ((evaluateShellCall args).2.getD "")
                403 "unsafe_shell_command"
            else if n = "python_exec" && (evaluatePythonCall args).1 = false then
              denyVerdict ((evaluatePythonCall args).2.getD "")
                403 "unsafe_python_code"
            else allowVerdict

/-! ## Tool registry (src/tools/index.js) -/

/-- A registered handler, reduced to what it computes from the parsed
arguments: either a returned JS value or a thrown error message. -/
inductive HandlerOutcome where
  | ret (value : JVal)
  | err (msg : String)

/-- A handler as a function of its parsed argument mapping. -/
abbrev Handler := JVal → HandlerOutcome

/-- The full `TOOL_ALIASES` table.  (The `"Web Search"` and `"WebSearch"`
keys are present in the source but are unreachable through the lowercased
lookup.) -/
def TOOL_ALIASES : List (String × String) :=
  [ ("bash", "shell"), ("shell", "shell"), ("sh", "shell"), ("terminal", "shell")
  , ("grep", "workspace_search"), ("search", "workspace_search"), ("find", "workspace_search")
  , ("websearch", "web_search"), ("web_search", "web_search")
  , ("Web Search", "web_search"), ("WebSearch", "web_search")
  , ("web_fetch", "web_fetch"), ("webfetch", "web_fetch")
  , ("task", "fs_write"), ("write", "fs_write"), ("filewrite", "fs_write")
  , ("read", "fs_read"), ("fileread", "fs_read")
  , ("patch", "edit_patch"), ("edit", "edit_patch")
  , ("list", "workspace_list"), ("ls", "workspace_list"), ("dir", "workspace_list")
  , ("summary", "project_summary"), ("projectsummary", "project_summary")
  , ("overview", "project_summary")
  , ("reindex", "workspace_index_rebuild"), ("index", "workspace_index_rebuild")
  , ("scan", "workspace_index_rebuild")
  , ("history", "workspace_edit_history"), ("edits", "workspace_edit_history")
  , ("undo", "workspace_edit_revert"), ("revert", "workspace_edit_revert")
  , ("diff", "workspace_diff")
  , ("diffsummary", "workspace_diff_summary"), ("summarizediff", "workspace_diff_summary")
  , ("diffsum", "workspace_diff_summary")
  , ("symbol", "workspace_symbol_search"), ("symbols", "workspace_symbol_search")
  , ("findsymbol", "workspace_symbol_search"), ("symbolsearch", "workspace_symbol_search")
  , ("references", "workspace_symbol_references"), ("ref", "workspace_symbol_references")
  , ("findreferences", "workspace_symbol_references"), ("usages", "workspace_symbol_references")
  , ("status", "workspace_git_status"), ("stage", "workspace_git_stage")
  , ("unstage", "workspace_git_unstage"), ("commit", "workspace_git_commit")
  , ("push", "workspace_git_push"), ("pull", "workspace_git_pull")
  , ("branches", "workspace_git_branches"), ("checkout", "workspace_git_checkout")
  , ("branch", "workspace_git_checkout"), ("stash", "workspace_git_stash")
  , ("review", "workspace_diff_review"), ("releasenotes", "workspace_release_notes")
  , ("diffstat", "workspace_diff_by_commit"), ("merge", "workspace_git_merge")
  , ("rebase", "workspace_git_rebase"), ("conflicts", "workspace_git_conflicts")
  , ("patchplan", "workspace_git_patch_plan"), ("changelog", "workspace_changelog_generate")
  , ("prtemplate", "workspace_pr_template_generate")
  , ("sandbox", "workspace_sandbox_sessions"), ("mcpsessions", "workspace_sandbox_sessions")
  , ("mcpservers", "workspace_mcp_servers")
  , ("tests", "workspace_test_summary"), ("testrun", "workspace_test_run")
  , ("runtests", "workspace_test_run"), ("testsummary", "workspace_test_summary")
  , ("testhistory", "workspace_test_history") ]

/-- Alias-table lookup by (lowercased) name. -/
def aliasOf (n : String) : Option String :=
  (TOOL_ALIASES.find? (fun kv => kv.1 = n)).map (fun kv => kv.2)

/-- Lowercase a string (JS `toLowerCase` on the names used here). -/
def lowerStr (s : String) : String := String.mk (s.data.map Char.toLower)

/-- `Map.get` on the canonical registry: JS `Map.set` overwrites, so the
last registration of a name wins. -/
def lookupLast (reg : List (String × Handler)) (n : String) : Option Handler :=
  match reg with
  | [] => none
  | (k, h) :: rest =>
      match lookupLast rest n with
      | some h2 => some h2
      | none => if k = n then some h else none

/-- `registryLowercase.get`: the original name of the last registered
tool whose lowercased name matches. -/
def lookupLowerLast (reg : List (String × Handler)) (lower : String) : Option String :=
  match reg with
  | [] => none
  | (k, _) :: rest =>
      match lookupLowerLast rest lower with
      | some orig => some orig
      | none => if lowerStr k = lower then some k else none

/-- The lowercase-shadow-map step of the resolution in `executeToolCall`:
resolve the original name and rewrite the call name to it. -/
def resolveLower (reg : List (String × Handler)) (n : String) :
    Option Handler × String :=
  match lookupLowerLast reg (lowerStr n) with
  | some orig => (lookupLast reg orig, orig)
  | none => (none, n)

/-- The full name resolution of `executeToolCall`: exact canonical name,
then the alias table on the lowercased name, then the lowercase shadow
map.  Returns the handler (if any) and the final call name. -/
def resolveReg (reg : List (String × Handler)) (n : String) :
    Option Handler × String :=
  match lookupLast reg n with
  | some h => (some h, n)
  | none =>
      match aliasOf (lowerStr n) with
      | some target =>
          match lookupLast reg target with
          | some h => (some h, target)
          | none => resolveLower reg n
      | none => resolveLower reg n

/-- Indentation for `JSON.stringify(value, null, 2)`. -/
def indentStr (d : Nat) : String := String.mk (List.replicate (2 * d) ' ')

mutual

/-- `JSON.stringify(value, null, 2)` at nesting depth `d`. -/
def jsonIndent (d : Nat) : JVal → String
  | JVal.jnull => "null"
  | JVal.undef => "null"
  | JVal.bool b => cond b "true" "false"
  | JVal.num n => numRepr n
  | JVal.str s => quoteStr s
  | JVal.arr [] => "[]"
  | JVal.arr items =>
      "[\n" ++ indentItems (d + 1) items ++ "\n" ++ indentStr d ++ "]"
  | JVal.obj fields =>
      match dropUndef fields with
      | [] => "\x7b\x7d"
      | _ => "\x7b\n" ++ indentMembers (d + 1) fields ++ "\n" ++ indentStr d ++ "\x7d"

/-- Indented array elements. -/
def indentItems (d : Nat) : List JVal → String
  | [] => ""
  | [v] => indentStr d ++ jsonIndent d v
  | v :: rest => indentStr d ++ jsonIndent d v ++ ",\n" ++ indentItems d rest

/-- Indented object members, skipping `undefined` values. -/
def indentMembers (d : Nat) : List (String × JVal) → String
  | [] => ""
  | (_, JVal.undef) :: rest => indentMembers d rest
  | (k, v) :: rest =>
      match indentMembers d rest with
      | "" => indentStr d ++ quoteStr k ++ ": " ++ jsonIndent d v
      | tailStr => indentStr d ++ quoteStr k ++ ": " ++ jsonIndent d v ++ ",\n" ++ tailStr

end

/-- Embedding of `coerceString`: `null`/`undefined` become the empty
string, strings pass through, everything else is pretty-printed JSON. -/
def coerceString : JVal → String
  | JVal.undef => ""
  | JVal.jnull => ""
  | JVal.str s => s
  | v => jsonIndent 0 v

/-- The normalised `{ok, status, content, metadata}` a handler result is
coerced into. -/
structure NormalisedResult where
  ok : JVal
  status : JVal
  content : String
  metadata : JVal

/-- Embedding of `normalizeHandlerResult`. -/
def normalizeHandlerResult : JVal → NormalisedResult
  | JVal.str s => ⟨JVal.bool true, JVal.num 200, s, JVal.obj []⟩
  | JVal.undef => ⟨JVal.bool true, JVal.num 200, "", JVal.obj []⟩
  | JVal.jnull => ⟨JVal.bool true, JVal.num 200, "", JVal.obj []⟩
  | r =>
      let ok := coalesce (jget r "ok") (JVal.bool true)
      let status :=
        coalesce (jget r "status") (if truthy ok then JVal.num 200 else JVal.num 500)
      let content :=
        coerceString
          (coalesce (jget r "content")
            (coalesce (jget r "output") (coalesce (jget r "data") (JVal.str ""))))
      let metadata := coalesce (jget r "metadata") (JVal.obj [])
      ⟨ok, status, content, metadata⟩

/-- A tool result as `executeToolCall` returns it.  The metadata spread
`{...formatted.metadata, registered}` is modelled by keeping the base
metadata value and the `registered`/`error` flags as separate fields. -/
structure ToolResult where
  id : String
  name : Option String
  arguments : JVal
  ok : JVal
  status : JVal
  content : String
  metadata : JVal
  registered : Bool
  errored : Bool
  errMsg : Option String

/-- The 404 result for an unresolvable tool name. -/
def toolNotRegisteredResult (id n : String) (args : JVal) : ToolResult :=
  { id := id, name := some n, arguments := args
    ok := JVal.bool false, status := JVal.num 404
    content := coerceString (JVal.obj
      [("error", JVal.str "tool_not_registered"), ("tool", JVal.str n), ("input", args)])
    metadata := JVal.obj [], registered := false, errored := false, errMsg := none }

/-- The 500 result for a handler that threw. -/
def toolFailedResult (id n : String) (args : JVal) (msg : String) : ToolResult :=
  { id := id, name := some n, arguments := args
    ok := JVal.bool false, status := JVal.num 500
    content := coerceString (JVal.obj
      [("error", JVal.str "tool_execution_failed"), ("tool", JVal.str n),
       ("message", JVal.str msg)])
    metadata := JVal.obj [], registered := true, errored := true, errMsg := some msg }

/-- The result assembled from a handler's normalised return value. -/
def toolSuccessResult (id n : String) (args : JVal) (f : NormalisedResult) : ToolResult :=
  { id := id, name := some n, arguments := args
    ok := f.ok, status := f.status, content := f.content
    metadata := f.metadata, registered := true, errored := false, errMsg := none }

/-- Embedding of `executeToolCall`: normalise the call (id assignment
uses the clock), resolve the name exact → alias table → lowercase map,
and run the handler, converting a missing registration into a 404 result
and a thrown handler error into a 500 result.  A call without any name
reaches `normalisedCall.name.toLowerCase()` on `undefined` in the alias
step and throws a `TypeError`, modelled as `Except.error`. -/
def executeToolCall (reg : List (String × Handler)) (call : UpstreamCall)
    (now : Nat) : Except String ToolResult :=
  let name? := toolNameOf call
  let args := parsedArgsOf call.argPayload
  let id := call.id.getD ((name?.getD "tool") ++ "_" ++ toString now)
  match name? with
  | none =>
      Except.error "TypeError: Cannot read properties of undefined (reading toLowerCase)"
  | some n =>
      match resolveReg reg n with
      | (some h, m) =>
          match h args with
          | HandlerOutcome.ret v =>
              Except.ok (toolSuccessResult id m args (normalizeHandlerResult v))
          | HandlerOutcome.err msg => Except.ok (toolFailedResult id m args msg)
      | (none, m) => Except.ok (toolNotRegisteredResult id m args)

/-- Embedding of `getTool`: exact name, then the lowercase shadow map,
then the alias table — note the order differs from `executeToolCall`. -/
def getTool (reg : List (String × Handler)) (name : Option String) : Option Handler :=
  match name with
  | none => none
  | some n =>
      match lookupLast reg n with
      | some h => some h
      | none =>
          match lookupLowerLast reg (lowerStr n) with
          | some orig => lookupLast reg orig
          | none =>
              match aliasOf (lowerStr n) with
              | some target => lookupLast reg target
              | none => none

/-! ## MCP client (src/mcp/client.js) -/

/-- The state a `McpClient` owns: server id, `started`/`closed` flags,
the monotone request-id counter and the pending map (as the list of
pending request ids in insertion order). -/
structure McpState where
  serverId : String
  started : Bool
  closed : Bool
  nextId : Nat
  pending : List Nat

/-- What a call to `request` does, seen from the caller: a synchronous
throw, a promise registered in the pending map, or a promise immediately
rejected because the stdin write threw. -/
inductive ReqOutcome where
  | syncError (msg : String)
  | issued (id : Nat)
  | writeFailed (id : Nat)

/-- Embedding of `McpClient.request`: throws synchronously when not
started or closed; otherwise takes a fresh id and registers it pending
(unless the stdin write fails, in which case the pending entry is removed
again and the promise rejected at once). -/
def mcpRequest (s : McpState) (writeOk : Bool) : McpState × ReqOutcome :=
  if s.started = false then
    (s, ReqOutcome.syncError ("MCP server \"" ++ s.serverId ++ "\" is not started."))
  else if s.closed then
    (s, ReqOutcome.syncError ("MCP server \"" ++ s.serverId ++ "\" connection is closed."))
  else
    let id := s.nextId
    if writeOk then
      ({ s with nextId := id + 1, pending := s.pending ++ [id] }, ReqOutcome.issued id)
    else
      ({ s with nextId := id + 1 }, ReqOutcome.writeFailed id)

/-- Embedding of `McpClient.close`: a no-op when already closed,
otherwise marks the client closed, rejects every pending request and
empties the pending map.  Returns the ids whose promises were rejected. -/
def mcpClose (s : McpState) : McpState × List Nat :=
  if s.closed then (s, [])
  else ({ s with closed := true, pending := [] }, s.pending)

/-- Embedding of `handleMessage` for a response id: a pending id is
removed and its promise settled; unknown ids are ignored. -/
def mcpHandleMessage (s : McpState) (id : Nat) : McpState :=
  if s.pending.contains id then
    { s with pending := s.pending.filter (fun x => !(x = id)) }
  else s

/-- The operations that can hit a client after it is closed. -/
inductive McpOp where
  | opRequest (writeOk : Bool)
  | opClose
  | opHandleMessage (id : Nat)
  | opNotify

/-- One client operation as a state transition. -/
def mcpStep (s : McpState) : McpOp → McpState
  | McpOp.opRequest w => (mcpRequest s w).1
  | McpOp.opClose => (mcpClose s).1
  | McpOp.opHandleMessage id => mcpHandleMessage s id
  | McpOp.opNotify => s

/-- Run a sequence of client operations. -/
def mcpRun (s : McpState) (ops : List McpOp) : McpState := ops.foldl mcpStep s

/-! ## Concrete fixtures used by witnesses and counterexamples -/

/-- A response whose `ok` is `true`, status is 200, and whose first
choice's message carries no tool-call list, yet whose `finish_reason` is
`"tool_calls"`. -/
def respFinishToolCalls : JVal :=
  JVal.obj
    [ ("ok", JVal.bool true)
    , ("status", JVal.num 200)
    , ("json", JVal.obj [("choices", JVal.arr
        [JVal.obj [("finish_reason", JVal.str "tool_calls"), ("message", JVal.obj [])]])]) ]

/-- A shell call whose arguments arrive as a structured object rather
than a stringified JSON field. -/
def shellCallStructured : UpstreamCall :=
  { id := none, fname := some "shell", name := none
  , argPayload :=
      ArgPayload.structuredValue (JVal.obj [("command", JVal.str "shutdown now")]) }

/-- A registry holding both a canonical `Grep` tool and the alias target
`workspace_search`. -/
def grepRegistry : List (String × Handler) :=
  [ ("Grep", fun _ => HandlerOutcome.ret (JVal.str "from-Grep"))
  , ("workspace_search", fun _ => HandlerOutcome.ret (JVal.str "from-workspace-search")) ]

/-- Two key/value pairs that agree on the key and on the normalisation
of their values. -/
def KVRel (a b : String × JVal) : Prop :=
  a.1 = b.1 ∧ normaliseObject a.2 = normaliseObject b.2

/-- A concrete admissible response for the LRU witness. -/
def respPlain : JVal :=
  JVal.obj
    [ ("ok", JVal.bool true), ("status", JVal.num 200)
    , ("json", JVal.obj [("choices", JVal.arr [JVal.obj [("message", JVal.obj [])]])]) ]

/-- A concrete live cache entry for the LRU witness. -/
def entryPlain : CacheEntry := ⟨JVal.jnull, 0, some 300000⟩

/-- A concrete two-entry cache for the LRU witness. -/
def cacheTwo : PromptCache :=
  ⟨true, 64, 300000, [("x", entryPlain), ("k", entryPlain)]⟩


/-! ## Helper lemmas -/

/-- No client operation ever un-closes a closed client. -/
theorem mcpStep_preserves (s : McpState) (op : McpOp)
    (hs : s.started = true) (hc : s.closed = true) :
    (mcpStep s op).started = true ∧ (mcpStep s op).closed = true ∧
    (mcpStep s op).serverId = s.serverId := by
  cases op with
  | opRequest w =>
      simp [mcpStep, mcpRequest, hs, hc]
  | opClose =>
      simp [mcpStep, mcpClose, hc, hs]
  | opHandleMessage id =>
      simp only [mcpStep, mcpHandleMessage]
      split <;> simp [hs, hc]
  | opNotify =>
      simp [mcpStep, hs, hc]

/-- Running any operations from a started, closed state keeps it
started and closed with the same server id. -/
theorem mcpRun_preserves (ops : List McpOp) :
    ∀ s : McpState, s.started = true → s.closed = true →
      (mcpRun s ops).started = true ∧ (mcpRun s ops).closed = true ∧
      (mcpRun s ops).serverId = s.serverId := by
  induction ops with
  | nil => intro s hs hc; exact ⟨hs, hc, rfl⟩
  | cons op rest ih =>
      intro s hs hc
      have h1 := mcpStep_preserves s op hs hc
      have h2 := ih (mcpStep s op) h1.1 h1.2.1
      exact ⟨h2.1, h2.2.1, h2.2.2.trans h1.2.2⟩

/-! ## Claim theorems -/

/-- C1: the spec requires `resolveWorkspacePath` to stay within the
workspace root or fail closed for *every* input, but the code guards with
a textual `startsWith(workspaceRoot)`: with root `/workspace`, the input
`../workspace-evil` resolves to `/workspace-evil` — a sibling directory
outside the root — yet is returned successfully because the text
`/workspace-evil` starts with `/workspace`. -/
theorem resolveWorkspacePath_prefix_escape :
    resolveWorkspacePath "/workspace" "../workspace-evil" =
      Except.ok "/workspace-evil" ∧
    isContainedIn "/workspace" "/workspace-evil" = false := by
  exact ⟨rfl, rfl⟩

/-- C10: a cache constructed with `enabled = false` is fully inert:
`buildKey` and `fetch` return `null`, `storeResponse` returns `null`,
`lookup` misses, and none of them changes the cache state. -/
theorem promptCache_disabled_inert (c : PromptCache) (h : c.enabled = false)
    (payload response : JVal) (pk : Sum String JVal) (now : Nat) :
    buildKey c payload = none ∧
    lookup c pk now = (c, none, none) ∧
    fetch c payload now = (c, none) ∧
    storeResponse c pk response now = (c, none) := by
  refine ⟨?_, ?_, ?_, ?_⟩
  · simp [buildKey, h]
  · simp [lookup, h]
  · simp [fetch, lookup, h]
  · simp [storeResponse, h]

/-- Witness for C10 at a concrete disabled cache. -/
theorem promptCache_disabled_inert_witness :
    buildKey ⟨false, 64, 300000, []⟩ (JVal.obj []) = none ∧
    lookup ⟨false, 64, 300000, []⟩ (Sum.inl "k") 0 = (⟨false, 64, 300000, []⟩, none, none) ∧
    fetch ⟨false, 64, 300000, []⟩ (JVal.obj []) 0 = (⟨false, 64, 300000, []⟩, none) ∧
    storeResponse ⟨false, 64, 300000, []⟩ (Sum.inl "k") (JVal.obj []) 0 =
      (⟨false, 64, 300000, []⟩, none) :=
  promptCache_disabled_inert ⟨false, 64, 300000, []⟩ rfl (JVal.obj []) (JVal.obj [])
    (Sum.inl "k") 0

/-- C7: `evaluateToolCall` tests the disallow list before the per-turn
quota: a disallowed (hence non-empty: the config builds the list with
`.filter(Boolean)`) tool name yields the 403 `tool_disallowed` verdict
even when the quota is exhausted, and a name that is not disallowed with
the quota exhausted yields the 429 `tool_limit_reached` verdict. -/
theorem evaluateToolCall_disallow_before_quota (cfg : PolicyConfig)
    (call : UpstreamCall) (executed : Nat) (n : String)
    (hname : toolNameOf call = some n) :
    (n ∈ cfg.disallowedTools → n ≠ "" →
      evaluateToolCall cfg call executed =
        denyVerdict ("Tool " ++ n ++ " is disallowed by policy") 403 "tool_disallowed") ∧
    (n ∉ cfg.disallowedTools → cfg.maxToolCallsPerTurn ≤ executed →
      evaluateToolCall cfg call executed =
        denyVerdict ("Exceeded max tool calls (" ++ toString cfg.maxToolCallsPerTurn ++ ")")
          429 "tool_limit_reached") := by
  constructor
  · intro hmem hne
    simp [evaluateToolCall, hname, isToolAllowed, hne, hmem]
  · intro hmem hquota
    simp [evaluateToolCall, hname, isToolAllowed, hmem, hquota]

/-- Witness for C7: with disallow list `["danger"]` and quota 2 already
exhausted at 5 executed calls, a `danger` call is 403-disallowed and a
`shell` call is 429-limited. -/
theorem evaluateToolCall_disallow_before_quota_witness :
    evaluateToolCall ⟨["danger"], 2, false, true, true⟩
        ⟨none, none, some "danger", ArgPayload.absent⟩ 5 =
      denyVerdict "Tool danger is disallowed by policy" 403 "tool_disallowed" ∧
    evaluateToolCall ⟨["danger"], 2, false, true, true⟩
        ⟨none, none, some "shell", ArgPayload.absent⟩ 5 =
      denyVerdict "Exceeded max tool calls (2)" 429 "tool_limit_reached" :=
  ⟨(evaluateToolCall_disallow_before_quota ⟨["danger"], 2, false, true, true⟩
      ⟨none, none, some "danger", ArgPayload.absent⟩ 5 "danger" rfl).1
        (by decide) (by decide),
   (evaluateToolCall_disallow_before_quota ⟨["danger"], 2, false, true, true⟩
      ⟨none, none, some "shell", ArgPayload.absent⟩ 5 "shell" rfl).2
        (by decide) (by decide)⟩

/-- C6: `close` on a started, not-yet-closed client rejects exactly the
pending requests and empties the pending map, and after `close` — no
matter what further operations run — `request` fails synchronously with
the connection-closed error and leaves the state untouched, so no
request issued after close can ever succeed. -/
theorem mcpClient_close_rejects_and_blocks (s : McpState)
    (hstart : s.started = true) (hclosed : s.closed = false) :
    (mcpClose s).2 = s.pending ∧
    (mcpClose s).1.pending = [] ∧
    (∀ (ops : List McpOp) (w : Bool),
      mcpRequest (mcpRun (mcpClose s).1 ops) w =
        (mcpRun (mcpClose s).1 ops,
         ReqOutcome.syncError
           ("MCP server \"" ++ s.serverId ++ "\" connection is closed."))) := by
  have hc1 : (mcpClose s).1.started = true := by
    simp [mcpClose, hclosed, hstart]
  have hc2 : (mcpClose s).1.closed = true := by
    simp [mcpClose, hclosed]
  have hc3 : (mcpClose s).1.serverId = s.serverId := by
    simp [mcpClose, hclosed]
  refine ⟨?_, ?_, ?_⟩
  · simp [mcpClose, hclosed]
  · simp [mcpClose, hclosed]
  · intro ops w
    have h := mcpRun_preserves ops (mcpClose s).1 hc1 hc2
    simp [mcpRequest, h.1, h.2.1, h.2.2, hc3]

/-- Witness for C6 at a concrete client with pending ids 1 and 2. -/
theorem mcpClient_close_rejects_and_blocks_witness :
    (mcpClose ⟨"srv", true, false, 3, [1, 2]⟩).2 = [1, 2] ∧
    (mcpClose ⟨"srv", true, false, 3, [1, 2]⟩).1.pending = [] ∧
    mcpRequest (mcpRun (mcpClose ⟨"srv", true, false, 3, [1, 2]⟩).1
        [McpOp.opRequest true, McpOp.opNotify]) true =
      (mcpRun (mcpClose ⟨"srv", true, false, 3, [1, 2]⟩).1
        [McpOp.opRequest true, McpOp.opNotify],
       ReqOutcome.syncError "MCP server \"srv\" connection is closed.") :=
  ⟨(mcpClient_close_rejects_and_blocks ⟨"srv", true, false, 3, [1, 2]⟩ rfl rfl).1,
   (mcpClient_close_rejects_and_blocks ⟨"srv", true, false, 3, [1, 2]⟩ rfl rfl).2.1,
   (mcpClient_close_rejects_and_blocks ⟨"srv", true, false, 3, [1, 2]⟩ rfl rfl).2.2
     [McpOp.opRequest true, McpOp.opNotify] true⟩


/-- C2 counterexample: `respFinishToolCalls` satisfies all three
conditions of the claimed iff — `ok == true`, status 200, and the first
choice's message carries no tool-call list — yet `shouldCacheResponse`
rejects it (its `finish_reason` is `"tool_calls"`) and `storeResponse`
leaves the cache unchanged, so the claimed "if" direction fails. -/
theorem storeResponse_admission_iff_fails :
    jget respFinishToolCalls "ok" = JVal.bool true ∧
    jget respFinishToolCalls "status" = JVal.num 200 ∧
    jget (msgOf respFinishToolCalls) "tool_calls" = JVal.undef ∧
    shouldCacheResponse respFinishToolCalls = false ∧
    storeResponse ⟨true, 64, 300000, []⟩ (Sum.inl "k") respFinishToolCalls 0 =
      (⟨true, 64, 300000, []⟩, none) :=
  ⟨rfl, rfl, rfl, rfl, rfl⟩

/-- Normal form of the admission test as a conjunction of its seven
guards. -/
theorem shouldCacheResponse_eq (r : JVal) :
    shouldCacheResponse r =
      (truthy r && okTrueB r && truthy (jget r "json") && !statusBadB r &&
       truthy (choiceOf r) && !finishToolCallsB r && !msgToolCallsB r) := by
  unfold shouldCacheResponse
  cases truthy r <;> cases okTrueB r <;> cases truthy (jget r "json") <;>
    cases statusBadB r <;> cases truthy (choiceOf r) <;>
    cases finishToolCallsB r <;> cases msgToolCallsB r <;> rfl

/-- The `ok` guard holds exactly when `ok` is the boolean `true`. -/
theorem okTrueB_iff (r : JVal) : okTrueB r = true ↔ jget r "ok" = JVal.bool true := by
  unfold okTrueB
  cases h : jget r "ok" with
  | bool b => cases b <;> simp
  | jnull => simp
  | undef => simp
  | num n => simp
  | str s => simp
  | arr items => simp
  | obj fields => simp

/-- The status guard is clear exactly when a numeric status is 200. -/
theorem statusBadB_iff (r : JVal) :
    statusBadB r = false ↔ ∀ m : Int, jget r "status" = JVal.num m → m = 200 := by
  unfold statusBadB
  cases h : jget r "status" with
  | num n =>
      simp only [Bool.not_eq_false', decide_eq_true_eq]
      constructor
      · intro hn m hm
        cases hm
        exact hn
      · intro hall
        exact hall n rfl
  | jnull => simp
  | undef => simp
  | bool b => simp
  | str s => simp
  | arr items => simp
  | obj fields => simp

/-- The finish-reason guard is clear exactly when `finish_reason` is not
the string `"tool_calls"`. -/
theorem finishToolCallsB_iff (r : JVal) :
    finishToolCallsB r = false ↔
      jget (choiceOf r) "finish_reason" ≠ JVal.str "tool_calls" := by
  unfold finishToolCallsB
  cases h : jget (choiceOf r) "finish_reason" with
  | str s =>
      constructor
      · intro hs heq
        cases heq
        simp at hs
      · intro hne
        simp only [decide_eq_false_iff_not]
        intro hs
        exact hne (by rw [hs])
  | jnull => simp
  | undef => simp
  | bool b => simp
  | num n => simp
  | arr items => simp
  | obj fields => simp

/-- The message guard is clear exactly when any `tool_calls` array on
the first choice's message is empty. -/
theorem msgToolCallsB_iff (r : JVal) :
    msgToolCallsB r = false ↔
      ∀ l, jget (msgOf r) "tool_calls" = JVal.arr l → l = [] := by
  unfold msgToolCallsB
  cases h : jget (msgOf r) "tool_calls" with
  | arr items =>
      cases items with
      | nil =>
          simp only []
          constructor
          · intro _ l hl
            cases hl
            rfl
          · intro _
            trivial
      | cons x xs =>
          simp only []
          constructor
          · intro hfalse
            simp at hfalse
          · intro hall
            exact absurd (hall (x :: xs) rfl) (by simp)
  | jnull => simp
  | undef => simp
  | bool b => simp
  | num n => simp
  | str s => simp
  | obj fields => simp

/-- C2 (amended): a response is admitted into the cache iff it is truthy,
its `ok` is exactly the boolean `true`, it has a truthy `json` body, its
status — when numeric — is 200, its first choice is truthy with a
`finish_reason` other than `"tool_calls"`, and the first choice's message
carries no non-empty `tool_calls` array; and every response whose first
choice's message carries a non-empty tool-call list leaves the cache
unchanged under `storeResponse`. -/
theorem storeResponse_admission (r : JVal) :
    (shouldCacheResponse r = true ↔
      (truthy r = true ∧
       jget r "ok" = JVal.bool true ∧
       truthy (jget r "json") = true ∧
       (∀ m : Int, jget r "status" = JVal.num m → m = 200) ∧
       truthy (choiceOf r) = true ∧
       jget (choiceOf r) "finish_reason" ≠ JVal.str "tool_calls" ∧
       (∀ l, jget (msgOf r) "tool_calls" = JVal.arr l → l = []))) ∧
    (∀ (c : PromptCache) (pk : Sum String JVal) (now : Nat) (l : List JVal),
       jget (msgOf r) "tool_calls" = JVal.arr l → l ≠ [] →
       storeResponse c pk r now = (c, none)) := by
  have hiff : shouldCacheResponse r = true ↔
      (truthy r = true ∧ jget r "ok" = JVal.bool true ∧
       truthy (jget r "json") = true ∧
       (∀ m : Int, jget r "status" = JVal.num m → m = 200) ∧
       truthy (choiceOf r) = true ∧
       jget (choiceOf r) "finish_reason" ≠ JVal.str "tool_calls" ∧
       (∀ l, jget (msgOf r) "tool_calls" = JVal.arr l → l = [])) := by
    rw [shouldCacheResponse_eq]
    simp only [Bool.and_eq_true, Bool.not_eq_true']
    rw [okTrueB_iff, statusBadB_iff, finishToolCallsB_iff, msgToolCallsB_iff]
    tauto
  refine ⟨hiff, ?_⟩
  intro c pk now l hl hne
  have hmsgB : msgToolCallsB r = true := by
    unfold msgToolCallsB
    rw [hl]
    cases l with
    | nil => exact absurd rfl hne
    | cons x xs => rfl
  have hsc : shouldCacheResponse r = false := by
    rw [shouldCacheResponse_eq, hmsgB]
    simp
  unfold storeResponse
  rw [hsc]
  cases c.enabled <;> simp

/-- Witness for C2: a concrete admissible response is cached, and a
concrete response with a non-empty tool-call list leaves a concrete
cache unchanged. -/
theorem storeResponse_admission_witness :
    shouldCacheResponse (JVal.obj
      [ ("ok", JVal.bool true), ("status", JVal.num 200)
      , ("json", JVal.obj [("choices", JVal.arr
          [JVal.obj [("message", JVal.obj [("content", JVal.str "hi")])]])]) ]) = true ∧
    storeResponse ⟨true, 64, 300000, []⟩ (Sum.inl "k")
      (JVal.obj
        [ ("ok", JVal.bool true), ("status", JVal.num 200)
        , ("json", JVal.obj [("choices", JVal.arr
            [JVal.obj [("message", JVal.obj
              [("tool_calls", JVal.arr [JVal.obj []])])]])]) ]) 0 =
      (⟨true, 64, 300000, []⟩, none) :=
  ⟨(storeResponse_admission _).1.mpr
    ⟨rfl, rfl, rfl,
     fun m hm => (JVal.num.inj hm).symm,
     rfl,
     fun h => JVal.noConfusion h,
     fun l hl => JVal.noConfusion hl⟩,
   (storeResponse_admission _).2 ⟨true, 64, 300000, []⟩ (Sum.inl "k") 0
     [JVal.obj []] rfl (List.cons_ne_nil _ _)⟩


/-- C4 counterexample: the structured argument object normalises (via its
`command` field) to `"shutdown now"`, which matches the blocklist, yet
`evaluateToolCall` allows the call — the policy `parseArguments` only
parses *string* argument fields and turns a structured object into `{}`. -/
theorem evaluateToolCall_structured_shell_allowed :
    shellCommandOf (JVal.obj [("command", JVal.str "shutdown now")]) = "shutdown now" ∧
    matchesAny SHELL_BLOCKLIST_PATTERNS "shutdown now" = true ∧
    evaluateToolCall ⟨[], 12, false, true, true⟩ shellCallStructured 0 = allowVerdict :=
  ⟨rfl, by decide, rfl⟩

/-- The empty command matches no blocklist pattern. -/
theorem matchesAny_shell_empty : matchesAny SHELL_BLOCKLIST_PATTERNS "" = false := by
  decide

/-- C4 (amended): when the `shell` tool's arguments arrive as a
(parseable) stringified JSON field, the tool is not disallowed and the
per-turn quota is not exhausted, every argument mapping whose normalised
command string matches the blocklist is rejected with 403 /
`unsafe_shell_command`; arguments arriving as a structured object parse
to `{}` and are not screened (see the counterexample). -/
theorem evaluateToolCall_blocks_shell_strings (cfg : PolicyConfig)
    (call : UpstreamCall) (executed : Nat) (args : JVal)
    (hname : toolNameOf call = some "shell")
    (hargs : call.argPayload = ArgPayload.jsonString (some args))
    (hallow : "shell" ∉ cfg.disallowedTools)
    (hquota : executed < cfg.maxToolCallsPerTurn)
    (hmatch : matchesAny SHELL_BLOCKLIST_PATTERNS (shellCommandOf args) = true) :
    evaluateToolCall cfg call executed =
      denyVerdict "Command matched restricted pattern" 403 "unsafe_shell_command" := by
  have hcmd : shellCommandOf args ≠ "" := by
    intro h
    rw [h, matchesAny_shell_empty] at hmatch
    exact Bool.false_ne_true hmatch
  have hshell : evaluateShellCall args = (false, some "Command matched restricted pattern") := by
    unfold evaluateShellCall
    rw [if_neg hcmd, if_pos hmatch]
  have hgit : gitPolicyVerdict cfg "shell" = none := by
    unfold gitPolicyVerdict
    rw [if_pos (by decide)]
  unfold evaluateToolCall
  rw [hname]
  simp only [isToolAllowed, if_neg (by decide : ¬("shell" : String) = "")]
  rw [if_neg (by simp [hallow]), if_neg (by omega), hargs]
  simp only [parsedArgsOf, hgit, hshell]
  simp

/-- Witness for C4 at a concrete stringified shell call. -/
theorem evaluateToolCall_blocks_shell_strings_witness :
    evaluateToolCall ⟨[], 12, false, true, true⟩
      ⟨none, some "shell", none,
       ArgPayload.jsonString (some (JVal.obj [("command", JVal.str "shutdown now")]))⟩ 0 =
      denyVerdict "Command matched restricted pattern" 403 "unsafe_shell_command" :=
  evaluateToolCall_blocks_shell_strings ⟨[], 12, false, true, true⟩
    ⟨none, some "shell", none,
     ArgPayload.jsonString (some (JVal.obj [("command", JVal.str "shutdown now")]))⟩ 0
    (JVal.obj [("command", JVal.str "shutdown now")]) rfl rfl (by decide) (by decide)
    (by decide)

/-- C5 counterexample: a tool call carrying no name at all makes
`executeToolCall` throw (the alias-resolution step calls `toLowerCase`
on `undefined`) instead of returning a tool result. -/
theorem executeToolCall_missing_name_throws :
    executeToolCall [] ⟨none, none, none, ArgPayload.absent⟩ 0 =
      Except.error "TypeError: Cannot read properties of undefined (reading toLowerCase)" :=
  rfl

/-- C5 (amended): for every call that carries a (string) name,
`executeToolCall` never throws: it always returns a tool result; an
unresolvable name yields the 404 `tool_not_registered` result, and a
resolved handler that throws yields the 500 result whose content is the
serialised `{error: "tool_execution_failed", tool, message}` object. -/
theorem executeToolCall_total_for_named (reg : List (String × Handler))
    (call : UpstreamCall) (now : Nat) (n : String)
    (hname : toolNameOf call = some n) :
    (∃ r, executeToolCall reg call now = Except.ok r) ∧
    ((resolveReg reg n).1 = none →
      executeToolCall reg call now =
        Except.ok (toolNotRegisteredResult
          (call.id.getD (n ++ "_" ++ toString now)) (resolveReg reg n).2
          (parsedArgsOf call.argPayload))) ∧
    (∀ (h : Handler) (m msg : String), resolveReg reg n = (some h, m) →
      h (parsedArgsOf call.argPayload) = HandlerOutcome.err msg →
      executeToolCall reg call now =
        Except.ok (toolFailedResult (call.id.getD (n ++ "_" ++ toString now)) m
          (parsedArgsOf call.argPayload) msg)) := by
  refine ⟨?_, ?_, ?_⟩
  · rcases hres : resolveReg reg n with ⟨ho, m⟩
    cases ho with
    | none =>
        refine ⟨toolNotRegisteredResult (call.id.getD (n ++ "_" ++ toString now)) m
          (parsedArgsOf call.argPayload), ?_⟩
        simp only [executeToolCall, hname, hres, Option.getD_some]
    | some h =>
        cases hout : h (parsedArgsOf call.argPayload) with
        | ret v =>
            refine ⟨toolSuccessResult (call.id.getD (n ++ "_" ++ toString now)) m
              (parsedArgsOf call.argPayload) (normalizeHandlerResult v), ?_⟩
            simp only [executeToolCall, hname, hres, hout, Option.getD_some]
        | err msg =>
            refine ⟨toolFailedResult (call.id.getD (n ++ "_" ++ toString now)) m
              (parsedArgsOf call.argPayload) msg, ?_⟩
            simp only [executeToolCall, hname, hres, hout, Option.getD_some]
  · intro hnone
    rcases hres : resolveReg reg n with ⟨ho, m⟩
    rw [hres] at hnone
    cases ho with
    | some h => exact absurd hnone (by simp)
    | none => simp only [executeToolCall, hname, hres, Option.getD_some]
  · intro h m msg hres hout
    simp only [executeToolCall, hname, hres, hout, Option.getD_some]

/-- Witness for C5: a registry with one throwing handler yields the 500
result for its tool and the 404 result for an unknown name, through the
amended theorem. -/
theorem executeToolCall_total_for_named_witness :
    executeToolCall [("boom", fun _ => HandlerOutcome.err "kaput")]
      ⟨none, some "boom", none, ArgPayload.absent⟩ 7 =
      Except.ok (toolFailedResult "boom_7" "boom" (JVal.obj []) "kaput") ∧
    executeToolCall [("boom", fun _ => HandlerOutcome.err "kaput")]
      ⟨some "c9", some "nosuch", none, ArgPayload.absent⟩ 7 =
      Except.ok (toolNotRegisteredResult "c9" "nosuch" (JVal.obj [])) :=
  ⟨(executeToolCall_total_for_named [("boom", fun _ => HandlerOutcome.err "kaput")]
      ⟨none, some "boom", none, ArgPayload.absent⟩ 7 "boom" rfl).2.2
      (fun _ => HandlerOutcome.err "kaput") "boom" "kaput" rfl rfl,
   (executeToolCall_total_for_named [("boom", fun _ => HandlerOutcome.err "kaput")]
      ⟨some "c9", some "nosuch", none, ArgPayload.absent⟩ 7 "nosuch" rfl).2.1 rfl⟩


/-- C8 counterexample: the name `grep` is not an exact canonical match
but matches the registered `Grep` case-insensitively, and the alias table
maps it to the registered `workspace_search`; `executeToolCall`
dispatches to the *alias target*, not the case-insensitive match — the
resolution order is exact → alias table → lowercase map, not
exact → lowercase → alias. -/
theorem executeToolCall_alias_preempts_lowercase :
    lookupLast grepRegistry "grep" = none ∧
    lookupLowerLast grepRegistry "grep" = some "Grep" ∧
    aliasOf "grep" = some "workspace_search" ∧
    executeToolCall grepRegistry ⟨some "c1", some "grep", none, ArgPayload.absent⟩ 0 =
      Except.ok (toolSuccessResult "c1" "workspace_search" (JVal.obj [])
        ⟨JVal.bool true, JVal.num 200, "from-workspace-search", JVal.obj []⟩) :=
  ⟨rfl, rfl, rfl, rfl⟩

/-- C8 (amended): name resolution in `executeToolCall` is exact
canonical name, then the alias table on the lowercased name, then the
lowercase shadow map: whenever the name is not an exact match and the
alias table maps its lowercased form to a registered tool, execution
dispatches to the alias target — even if some registered tool also
matches case-insensitively.  (`getTool`, by contrast, consults the
lowercase map before the alias table.) -/
theorem executeToolCall_resolution_order (reg : List (String × Handler))
    (call : UpstreamCall) (now : Nat) (n t s : String) (h : Handler)
    (hname : toolNameOf call = some n)
    (hexact : lookupLast reg n = none)
    (halias : aliasOf (lowerStr n) = some t)
    (htarget : lookupLast reg t = some h)
    (hret : h (parsedArgsOf call.argPayload) = HandlerOutcome.ret (JVal.str s)) :
    executeToolCall reg call now =
      Except.ok (toolSuccessResult (call.id.getD (n ++ "_" ++ toString now)) t
        (parsedArgsOf call.argPayload)
        ⟨JVal.bool true, JVal.num 200, s, JVal.obj []⟩) := by
  have hres : resolveReg reg n = (some h, t) := by
    simp only [resolveReg, hexact, halias, htarget]
  simp only [executeToolCall, hname, hres, hret, Option.getD_some]
  rfl

/-- Witness for C8 on the concrete `Grep`/`workspace_search` registry. -/
theorem executeToolCall_resolution_order_witness :
    executeToolCall grepRegistry ⟨some "c2", some "GREP", none, ArgPayload.absent⟩ 3 =
      Except.ok (toolSuccessResult "c2" "workspace_search" (JVal.obj [])
        ⟨JVal.bool true, JVal.num 200, "from-workspace-search", JVal.obj []⟩) :=
  executeToolCall_resolution_order grepRegistry
    ⟨some "c2", some "GREP", none, ArgPayload.absent⟩ 3 "GREP" "workspace_search"
    "from-workspace-search" (fun _ => HandlerOutcome.ret (JVal.str "from-workspace-search"))
    rfl rfl rfl rfl rfl

/-- Normalisation maps a value to `undefined` only if it was
`undefined`. -/
theorem normaliseObject_eq_undef_iff (v : JVal) :
    normaliseObject v = JVal.undef ↔ v = JVal.undef := by
  cases v <;> simp [normaliseObject]

/-- Normalisation preserves JS truthiness. -/
theorem truthy_normaliseObject (v : JVal) :
    truthy (normaliseObject v) = truthy v := by
  cases v <;> simp [normaliseObject, truthy]


/-- Field lists that are pointwise `KVRel` normalise to the same list. -/
theorem normaliseFields_congr (l1 l2 : List (String × JVal))
    (h : List.Forall₂ KVRel l1 l2) :
    normaliseFields l1 = normaliseFields l2 := by
  induction h with
  | nil => rfl
  | @cons a b t1 t2 hab htail ih =>
      obtain ⟨k1, v1⟩ := a
      obtain ⟨k2, v2⟩ := b
      obtain ⟨hk, hv⟩ := hab
      cases hk
      simp only [normaliseFields, hv, ih]

/-- Objects with pointwise `KVRel` fields normalise identically. -/
theorem normaliseObject_obj_congr (l1 l2 : List (String × JVal))
    (h : List.Forall₂ KVRel l1 l2) :
    normaliseObject (JVal.obj l1) = normaliseObject (JVal.obj l2) := by
  simp only [normaliseObject, normaliseFields_congr l1 l2 h]

/-- Nullish coalescing to `null` is a congruence for normalisation. -/
theorem coalesceNull_norm_congr (a b : JVal)
    (h : normaliseObject a = normaliseObject b) :
    normaliseObject (coalesce a JVal.jnull) =
      normaliseObject (coalesce b JVal.jnull) := by
  cases a <;> cases b <;> simp_all [coalesce, normaliseObject]

/-- The plain canonical-key slots (`payload.f ?? null`) are congruent in
the normalisation of the raw field. -/
theorem keyField_congr (p1 p2 : JVal) (name : String)
    (h : normaliseObject (jget p1 name) = normaliseObject (jget p2 name)) :
    normaliseObject (keyField p1 name) = normaliseObject (keyField p2 name) :=
  coalesceNull_norm_congr _ _ h

/-- The normalised canonical-key slots
(`payload.f ? normaliseObject(payload.f) : null`) are congruent in the
normalisation of the raw field. -/
theorem keyFieldNorm_congr (p1 p2 : JVal) (name : String)
    (h : normaliseObject (jget p1 name) = normaliseObject (jget p2 name)) :
    normaliseObject (keyFieldNorm p1 name) = normaliseObject (keyFieldNorm p2 name) := by
  unfold keyFieldNorm
  have ht : truthy (jget p1 name) = truthy (jget p2 name) := by
    rw [← truthy_normaliseObject, h, truthy_normaliseObject]
  rw [ht]
  by_cases htr : truthy (jget p2 name) = true
  · rw [if_pos htr, if_pos htr]
    exact congrArg normaliseObject h
  · rw [if_neg htr, if_neg htr]

/-- C3: for two truthy object-typed payloads whose eight canonical
fields (`model`, `input`, `messages`, `tools`, `tool_choice`,
`temperature`, `top_p`, `max_tokens`) agree after recursive key sorting
and `undefined` dropping, `buildKey` returns the identical cache key —
whatever other fields either payload carries. -/
theorem buildKey_deterministic (c : PromptCache) (p1 p2 : JVal)
    (htr1 : truthy p1 = true) (hobj1 : isObjectLike p1 = true)
    (htr2 : truthy p2 = true) (hobj2 : isObjectLike p2 = true)
    (hmodel : normaliseObject (jget p1 "model") = normaliseObject (jget p2 "model"))
    (hinput : normaliseObject (jget p1 "input") = normaliseObject (jget p2 "input"))
    (hmessages : normaliseObject (jget p1 "messages") = normaliseObject (jget p2 "messages"))
    (htools : normaliseObject (jget p1 "tools") = normaliseObject (jget p2 "tools"))
    (htoolchoice :
      normaliseObject (jget p1 "tool_choice") = normaliseObject (jget p2 "tool_choice"))
    (htemp :
      normaliseObject (jget p1 "temperature") = normaliseObject (jget p2 "temperature"))
    (htopp : normaliseObject (jget p1 "top_p") = normaliseObject (jget p2 "top_p"))
    (hmax :
      normaliseObject (jget p1 "max_tokens") = normaliseObject (jget p2 "max_tokens")) :
    buildKey c p1 = buildKey c p2 := by
  unfold buildKey
  by_cases he : c.enabled = false
  · rw [if_pos he, if_pos he]
  · rw [if_neg he, if_neg he, htr1, htr2, hobj1, hobj2]
    simp only [Bool.not_true, Bool.false_or, Bool.or_self, if_neg]
    have hkey : stableStringify (canonicalKeyObject p1) =
        stableStringify (canonicalKeyObject p2) := by
      unfold stableStringify canonicalKeyObject
      refine congrArg jsonStringify (normaliseObject_obj_congr _ _ ?_)
      refine List.Forall₂.cons ⟨rfl, keyField_congr _ _ _ hmodel⟩ ?_
      refine List.Forall₂.cons ⟨rfl, keyField_congr _ _ _ hinput⟩ ?_
      refine List.Forall₂.cons ⟨rfl, keyFieldNorm_congr _ _ _ hmessages⟩ ?_
      refine List.Forall₂.cons ⟨rfl, keyFieldNorm_congr _ _ _ htools⟩ ?_
      refine List.Forall₂.cons ⟨rfl, keyFieldNorm_congr _ _ _ htoolchoice⟩ ?_
      refine List.Forall₂.cons ⟨rfl, keyField_congr _ _ _ htemp⟩ ?_
      refine List.Forall₂.cons ⟨rfl, keyField_congr _ _ _ htopp⟩ ?_
      exact List.Forall₂.cons ⟨rfl, keyField_congr _ _ _ hmax⟩ List.Forall₂.nil
    rw [hkey]

/-- Witness for C3: two payloads that differ in extra fields
(`session_id`, `stream`) and in the key order inside `messages` get the
same cache key. -/
theorem buildKey_deterministic_witness :
    buildKey ⟨true, 64, 300000, []⟩
      (JVal.obj
        [ ("session_id", JVal.str "abc")
        , ("model", JVal.str "m")
        , ("messages", JVal.arr [JVal.obj
            [("role", JVal.str "user"), ("content", JVal.str "hi")]]) ]) =
    buildKey ⟨true, 64, 300000, []⟩
      (JVal.obj
        [ ("model", JVal.str "m")
        , ("messages", JVal.arr [JVal.obj
            [("content", JVal.str "hi"), ("role", JVal.str "user")]])
        , ("stream", JVal.bool true) ]) :=
  buildKey_deterministic ⟨true, 64, 300000, []⟩ _ _
    rfl rfl rfl rfl rfl rfl rfl rfl rfl rfl rfl rfl

/-- The eviction loop never leaves more than `maxEntries` entries. -/
theorem evictLoop_length_le (m : Nat) :
    ∀ l : List (String × CacheEntry), (evictLoop m l).length ≤ m
  | [] => by simp [evictLoop]
  | kv :: rest => by
      unfold evictLoop
      by_cases h : m < rest.length + 1
      · rw [if_pos h]
        exact evictLoop_length_le m rest
      · rw [if_neg h]
        simp only [List.length_cons]
        omega

/-- The eviction loop is the identity under the cap. -/
theorem evictLoop_of_le (m : Nat) :
    ∀ l : List (String × CacheEntry), l.length ≤ m → evictLoop m l = l
  | [], _ => rfl
  | kv :: rest, h => by
      unfold evictLoop
      rw [if_neg (by simp only [List.length_cons] at h; omega)]

/-- One entry over the cap evicts exactly the head. -/
theorem evictLoop_succ (m : Nat) (l : List (String × CacheEntry))
    (h : l.length = m + 1) : evictLoop m l = l.tail := by
  cases l with
  | nil => simp at h
  | cons kv rest =>
      have hr : rest.length = m := by simp only [List.length_cons] at h; omega
      unfold evictLoop
      rw [if_pos (by omega)]
      exact evictLoop_of_le m rest (by omega)

/-- A store consisting solely of entries freshly written at time `now`
is untouched by `pruneExpired` at time `now`. -/
theorem pruneExpired_fresh (c : PromptCache) (done : List String) (r : JVal) (now : Nat)
    (hstore : c.store = done.map (fun key => (key, freshEntry c r now))) :
    pruneExpired c now = c := by
  unfold pruneExpired
  by_cases hen : c.enabled = false
  · rw [if_pos hen]
  · rw [if_neg hen]
    by_cases ht : c.ttlMs = 0
    · rw [if_pos ht]
    · rw [if_neg ht]
      have hall : c.store.filter (fun kv => !entryExpired kv.2 now) = c.store := by
        refine List.filter_eq_self.mpr ?_
        intro kv hkv
        rw [hstore] at hkv
        simp only [List.mem_map] at hkv
        obtain ⟨key, _, hkv⟩ := hkv
        subst hkv
        unfold entryExpired freshEntry
        simp only []
        rw [if_pos (by omega)]
        simp only [Bool.not_eq_true', Bool.and_eq_false_iff]
        right
        simp only [decide_eq_false_iff_not]
        omega
      rw [hall]

/-- Deleting an absent key is the identity. -/
theorem storeDelete_of_not_mem (l : List (String × CacheEntry)) (k : String)
    (h : k ∉ l.map Prod.fst) : storeDelete l k = l := by
  refine List.filter_eq_self.mpr ?_
  intro kv hkv
  simp only [Bool.not_eq_true', decide_eq_false_iff_not]
  intro hk
  exact h (List.mem_map.mpr ⟨kv, hkv, hk⟩)

/-- Storing a fresh key into an all-fresh store under the cap appends it
at the most-recently-used tail. -/
theorem storeResponse_fresh_append (c : PromptCache) (done : List String) (k : String)
    (r : JVal) (now : Nat)
    (hen : c.enabled = true) (hsc : shouldCacheResponse r = true)
    (hstore : c.store = done.map (fun key => (key, freshEntry c r now)))
    (hk : k ∉ done)
    (hlen : done.length + 1 ≤ c.maxEntries) :
    (storeResponse c (Sum.inl k) r now).1 =
      { c with store := (done ++ [k]).map (fun key => (key, freshEntry c r now)) } ∧
    (storeResponse c (Sum.inl k) r now).2 = some k := by
  have hprune := pruneExpired_fresh c done r now hstore
  have hdel : storeDelete c.store k = c.store := by
    refine storeDelete_of_not_mem _ _ ?_
    rw [hstore]
    simp only [List.map_map, List.mem_map]
    rintro ⟨key, hmem, hkey⟩
    simp only [Function.comp_apply] at hkey
    exact hk (hkey ▸ hmem)
  have hlen2 : (storeDelete c.store k ++ [(k, freshEntry c r now)]).length ≤ c.maxEntries := by
    rw [hdel, hstore]
    simp only [List.length_append, List.length_map, List.length_singleton]
    omega
  unfold storeResponse
  rw [if_neg (by rw [hen]; simp), if_neg (by rw [hsc]; simp)]
  simp only [keyOf, hprune]
  rw [evictLoop_of_le _ _ hlen2, hdel, hstore]
  constructor
  · simp [List.map_append]
  · trivial

/-- Storing a list of fresh, distinct keys under the cap appends them
all in order, preserving the cache configuration. -/
theorem storeMany_fresh (r : JVal) (now : Nat) :
    ∀ (ks : List String) (c : PromptCache) (done : List String),
      c.enabled = true → shouldCacheResponse r = true →
      c.store = done.map (fun key => (key, freshEntry c r now)) →
      (done ++ ks).Nodup →
      (done ++ ks).length ≤ c.maxEntries →
      (storeMany c ks r now).store =
        (done ++ ks).map (fun key => (key, freshEntry c r now)) ∧
      (storeMany c ks r now).enabled = c.enabled ∧
      (storeMany c ks r now).maxEntries = c.maxEntries ∧
      (storeMany c ks r now).ttlMs = c.ttlMs := by
  intro ks
  induction ks with
  | nil =>
      intro c done hen hsc hstore hnd hlen
      refine ⟨?_, rfl, rfl, rfl⟩
      simpa using hstore
  | cons k rest ih =>
      intro c done hen hsc hstore hnd hlen
      have hk : k ∉ done := fun hmem =>
        ((List.nodup_append.mp hnd).2.2) hmem (List.mem_cons_self k rest)
      have hstep := storeResponse_fresh_append c done k r now hen hsc hstore hk
        (by simp only [List.length_append, List.length_cons] at hlen; omega)
      have hmany : storeMany c (k :: rest) r now =
          storeMany (storeResponse c (Sum.inl k) r now).1 rest r now := by
        simp [storeMany, List.foldl_cons]
      have hfresh : freshEntry (storeResponse c (Sum.inl k) r now).1 r now =
          freshEntry c r now := by
        rw [hstep.1]
        rfl
      have hrec := ih (storeResponse c (Sum.inl k) r now).1 (done ++ [k])
        (by rw [hstep.1]; exact hen) hsc
        (by simp only [hstep.1]; rfl)
        (by simpa [List.append_assoc] using hnd)
        (by rw [hstep.1]
            simp only [List.length_append, List.length_cons, List.length_singleton,
              List.length_nil] at hlen ⊢
            omega)
      rw [hmany]
      refine ⟨?_, ?_, ?_, ?_⟩
      · rw [hrec.1, hfresh]
        simp [List.append_assoc]
      · rw [hrec.2.1, hstep.1]
      · rw [hrec.2.2.1, hstep.1]
      · rw [hrec.2.2.2, hstep.1]

/-- Deleting a present key strictly shortens the store. -/
theorem storeDelete_length_lt (l : List (String × CacheEntry)) (k : String)
    (h : k ∈ l.map Prod.fst) : (storeDelete l k).length < l.length := by
  induction l with
  | nil => simp at h
  | cons kv rest ih =>
      simp only [List.map_cons, List.mem_cons] at h
      unfold storeDelete
      simp only [List.filter_cons]
      by_cases hk : kv.1 = k
      · rw [if_neg (by simp [hk])]
        have hle : (List.filter (fun kv => !(kv.1 = k)) rest).length ≤ rest.length :=
          List.length_filter_le _ _
        simp only [List.length_cons]
        omega
      · rw [if_pos (by simp [hk])]
        simp only [List.length_cons, Nat.succ_lt_succ_iff]
        exact ih (h.resolve_left (fun he => hk he.symm))

/-- Tail of a map is the map of the tail. -/
theorem map_tail_eq {α β : Type} (f : α → β) (l : List α) :
    (l.map f).tail = l.tail.map f := by
  cases l <;> rfl

/-- Projecting the keys back out of a key-to-entry pairing. -/
theorem map_fst_pairs (e : CacheEntry) :
    ∀ l : List String, (l.map (fun key => (key, e))).map Prod.fst = l
  | [] => rfl
  | a :: t => by simp [map_fst_pairs e t]

/-- C9: the prompt cache is a strict LRU: (a) an admitted write never
leaves more than `maxEntries` entries; (b) a rejected write leaves the
cache untouched; (c) writing `maxEntries + 1` distinct admissible keys
into an empty cache leaves exactly the last `maxEntries` of them — the
least-recently-used head is evicted; (d) a lookup hit moves the entry to
the most-recently-used tail; (e) re-storing an existing key under the
cap moves it to the most-recently-used tail without eviction. -/
theorem promptCache_lru :
    (∀ (c : PromptCache) (pk : Sum String JVal) (r : JVal) (now : Nat) (key : String),
        (storeResponse c pk r now).2 = some key →
        (storeResponse c pk r now).1.store.length ≤ c.maxEntries) ∧
    (∀ (c : PromptCache) (pk : Sum String JVal) (r : JVal) (now : Nat),
        (storeResponse c pk r now).2 = none →
        (storeResponse c pk r now).1 = c) ∧
    (∀ (c : PromptCache) (ks : List String) (r : JVal) (now : Nat),
        c.enabled = true → shouldCacheResponse r = true → c.store = [] →
        ks.Nodup → ks.length = c.maxEntries + 1 →
        (storeMany c ks r now).store.map Prod.fst = ks.tail) ∧
    (∀ (c : PromptCache) (key : String) (now : Nat) (e : CacheEntry),
        c.enabled = true →
        storeGet (pruneExpired c now).store key = some e →
        entryExpired e now = false →
        lookup c (Sum.inl key) now =
          ({ pruneExpired c now with
             store := storeDelete (pruneExpired c now).store key ++ [(key, e)] },
           some key, some e)) ∧
    (∀ (c : PromptCache) (k : String) (r : JVal) (now : Nat),
        c.enabled = true → shouldCacheResponse r = true →
        k ∈ (pruneExpired c now).store.map Prod.fst →
        (pruneExpired c now).store.length ≤ c.maxEntries →
        storeResponse c (Sum.inl k) r now =
          ({ pruneExpired c now with
             store := storeDelete (pruneExpired c now).store k ++ [(k, freshEntry c r now)] },
           some k)) := by
  refine ⟨?_, ?_, ?_, ?_, ?_⟩
  · -- (a) the eviction loop enforces the cap on every admitted write
    intro c pk r now key hsome
    unfold storeResponse at hsome ⊢
    by_cases h1 : c.enabled = false
    · rw [if_pos h1] at hsome
      exact absurd hsome (by simp)
    · rw [if_neg h1] at hsome ⊢
      by_cases h2 : shouldCacheResponse r = false
      · rw [if_pos h2] at hsome
        exact absurd hsome (by simp)
      · rw [if_neg h2] at hsome ⊢
        cases hkey : keyOf c pk with
        | none =>
            rw [hkey] at hsome
            exact absurd hsome (by simp)
        | some key2 =>
            exact evictLoop_length_le _ _
  · -- (b) a rejected write is a no-op
    intro c pk r now hnone
    unfold storeResponse at hnone ⊢
    by_cases h1 : c.enabled = false
    · rw [if_pos h1] at hnone ⊢
    · rw [if_neg h1] at hnone ⊢
      by_cases h2 : shouldCacheResponse r = false
      · rw [if_pos h2] at hnone ⊢
      · rw [if_neg h2] at hnone ⊢
        cases hkey : keyOf c pk with
        | none => rfl
        | some key2 =>
            rw [hkey] at hnone
            exact absurd hnone (by simp)
  · -- (c) maxEntries + 1 distinct fresh writes evict exactly the head
    intro c ks r now hen hsc hempty hnd hlen
    obtain ⟨klast, hklast⟩ : ∃ k, ks.drop c.maxEntries = [k] := by
      have hdlen : (ks.drop c.maxEntries).length = 1 := by
        rw [List.length_drop, hlen]
        omega
      cases hd : ks.drop c.maxEntries with
      | nil => rw [hd] at hdlen; simp at hdlen
      | cons a t =>
          cases t with
          | nil => exact ⟨a, rfl⟩
          | cons b t2 => rw [hd] at hdlen; simp at hdlen
    have hks : ks = ks.take c.maxEntries ++ [klast] := by
      rw [← hklast]
      exact (List.take_append_drop _ _).symm
    have htlen : (ks.take c.maxEntries).length = c.maxEntries := by
      rw [List.length_take]
      omega
    have hndt : (([] : List String) ++ ks.take c.maxEntries).Nodup := by
      simp only [List.nil_append]
      exact List.Nodup.sublist (List.take_sublist _ _) hnd
    have hmain := storeMany_fresh r now (ks.take c.maxEntries) c []
      hen hsc (by rw [hempty]; rfl) hndt
      (by simp only [List.nil_append, htlen]; omega)
    simp only [List.nil_append] at hmain
    have hmany : storeMany c ks r now =
        (storeResponse (storeMany c (ks.take c.maxEntries) r now) (Sum.inl klast) r now).1 := by
      conv_lhs => rw [hks]
      simp [storeMany, List.foldl_append]
    set cT := storeMany c (ks.take c.maxEntries) r now with hcT
    have hfreshT : freshEntry cT r now = freshEntry c r now := by
      unfold freshEntry
      rw [hmain.2.2.2]
    have hpr := pruneExpired_fresh cT (ks.take c.maxEntries) r now
      (by rw [hmain.1, hfreshT])
    have hkmem : klast ∉ ks.take c.maxEntries := by
      intro hmem
      have hnd2 : (ks.take c.maxEntries ++ [klast]).Nodup := hks ▸ hnd
      exact ((List.nodup_append.mp hnd2).2.2) hmem (List.mem_cons_self _ _)
    have hdel : storeDelete cT.store klast = cT.store := by
      refine storeDelete_of_not_mem _ _ ?_
      rw [hmain.1]
      simp only [List.map_map, List.mem_map]
      rintro ⟨key, hmem, hkey⟩
      simp only [Function.comp_apply] at hkey
      exact hkmem (hkey ▸ hmem)
    have hlen2 : (storeDelete cT.store klast ++ [(klast, freshEntry cT r now)]).length =
        cT.maxEntries + 1 := by
      rw [hdel, hmain.1, hmain.2.2.1]
      simp only [List.length_append, List.length_map, List.length_singleton, htlen]
    have hstore2 : (storeResponse cT (Sum.inl klast) r now).1.store =
        (storeDelete cT.store klast ++ [(klast, freshEntry cT r now)]).tail := by
      unfold storeResponse
      rw [if_neg (by rw [hmain.2.1, hen]; simp), if_neg (by rw [hsc]; simp)]
      simp only [keyOf, hpr]
      rw [evictLoop_succ cT.maxEntries _ hlen2]
    rw [hmany, hstore2, hdel, hmain.1, hfreshT]
    rw [show [(klast, freshEntry c r now)] =
          List.map (fun key => (key, freshEntry c r now)) [klast] from rfl]
    rw [← List.map_append, map_tail_eq, map_fst_pairs]
    conv_rhs => rw [hks]
  · -- (d) a lookup hit moves the entry to the tail
    intro c key now e hen hget hlive
    unfold lookup
    rw [if_neg (by rw [hen]; simp)]
    simp only [keyOf]
    rw [hget]
    simp [hlive]
  · -- (e) re-storing an existing key moves it to the tail, no eviction
    intro c k r now hen hsc hmem hlen
    have hlt := storeDelete_length_lt (pruneExpired c now).store k hmem
    unfold storeResponse
    rw [if_neg (by rw [hen]; simp), if_neg (by rw [hsc]; simp)]
    simp only [keyOf]
    rw [evictLoop_of_le _ _ (by
      simp only [List.length_append, List.length_singleton]
      omega)]




/-- Witness for C9 at concrete caches: the cap after an admitted write,
the no-op of a disabled write, eviction of the head after
`maxEntries + 1` = 3 distinct writes, the MRU move of a lookup hit, and
the MRU move of a re-store. -/
theorem promptCache_lru_witness :
    (storeResponse ⟨true, 1, 300000, []⟩ (Sum.inl "a") respPlain 0).1.store.length ≤ 1 ∧
    (storeResponse ⟨false, 64, 300000, []⟩ (Sum.inl "a") respPlain 0).1 =
      ⟨false, 64, 300000, []⟩ ∧
    (storeMany ⟨true, 2, 300000, []⟩ ["a", "b", "c"] respPlain 0).store.map Prod.fst =
      ["b", "c"] ∧
    lookup cacheTwo (Sum.inl "k") 5 =
      ({ pruneExpired cacheTwo 5 with
         store := storeDelete (pruneExpired cacheTwo 5).store "k" ++ [("k", entryPlain)] },
       some "k", some entryPlain) ∧
    storeResponse cacheTwo (Sum.inl "k") respPlain 5 =
      ({ pruneExpired cacheTwo 5 with
         store := storeDelete (pruneExpired cacheTwo 5).store "k" ++
           [("k", freshEntry cacheTwo respPlain 5)] },
       some "k") :=
  ⟨promptCache_lru.1 ⟨true, 1, 300000, []⟩ (Sum.inl "a") respPlain 0 "a" rfl,
   promptCache_lru.2.1 ⟨false, 64, 300000, []⟩ (Sum.inl "a") respPlain 0 rfl,
   promptCache_lru.2.2.1 ⟨true, 2, 300000, []⟩ ["a", "b", "c"] respPlain 0 rfl rfl rfl
     (by decide) rfl,
   promptCache_lru.2.2.2.1 cacheTwo "k" 5 entryPlain rfl rfl rfl,
   promptCache_lru.2.2.2.2 cacheTwo "k" respPlain 5 rfl rfl (by decide) (by decide)⟩

end Lynkr
